import Mathlib

/-!
Verification of the appcache-lock budgeted admission and execution engine.

Shallow embedding of `src/appcache_lock.py` (class `AppCacheLock`): the
directory catalog (`prioritize_directories`), the greedy budget selector
(`select_directories_within_limit`), the per-path locking operation
(`_lock_directory`), process cleanup (`_cleanup_processes`,
`_signal_handler`), the run driver (`preload_applications` plus the exit
code chosen in `main`), and a worker-pool model for the
`ThreadPoolExecutor(max_workers=...)` used to run lock operations.

I/O-provided data (measured directory sizes, membership of a directory in
the executable-directory list, availability of `vmtouch`, child-process
exit behaviour, signal arrival) is passed in as explicit parameters; sizes
and the memory limit are `Int`, matching Python's unbounded integers.
-/

/-- Structure `DirectoryInfo` from the source: one candidate directory with its
measured size, priority tier and source tag. -/
structure DirectoryInfo where
  path : String
  size : Int
  priority : Nat
  source : String
  deriving DecidableEq, Repr

/-- The sort key relation used at line 238 of the source:
`dir_info_list.sort(key=lambda x: (x.priority, -x.size))`, i.e. the
non-strict lexicographic order on `(priority, -size)`. -/
def dirKeyLE (a b : DirectoryInfo) : Prop :=
  a.priority < b.priority ∨ (a.priority = b.priority ∧ b.size ≤ a.size)

instance : DecidableRel dirKeyLE := fun a b => by
  unfold dirKeyLE; infer_instance

instance : IsTotal DirectoryInfo dirKeyLE where
  total a b := by
    rcases Nat.lt_trichotomy a.priority b.priority with h | h | h
    · exact Or.inl (Or.inl h)
    · rcases le_total b.size a.size with hs | hs
      · exact Or.inl (Or.inr ⟨h, hs⟩)
      · exact Or.inr (Or.inr ⟨h.symm, hs⟩)
    · exact Or.inr (Or.inl h)

instance : IsTrans DirectoryInfo dirKeyLE where
  trans a b c hab hbc := by
    rcases hab with h1 | ⟨h1, hs1⟩
    · rcases hbc with h2 | ⟨h2, _⟩
      · exact Or.inl (h1.trans h2)
      · exact Or.inl (h2 ▸ h1)
    · rcases hbc with h2 | ⟨h2, hs2⟩
      · exact Or.inl (h1 ▸ h2)
      · exact Or.inr ⟨h1.trans h2, hs2.trans hs1⟩

/-- Python's `list.sort` is a stable sort; with the key
`(priority, -size)` it coincides with insertion sort under the total
preorder `dirKeyLE` (a stable sort is uniquely determined by the key
order together with stability). -/
def sortDirectories (l : List DirectoryInfo) : List DirectoryInfo :=
  List.insertionSort dirKeyLE l

/-- The catalog-building loop of `prioritize_directories` (lines 218-235):
keep entries whose measured size is `> 0`; an application directory gets
priority 1 / source `"app"`, any other directory priority 2 /
source `"resource"`. The measured size and the app-membership test
(`directory in app_dirs`) are I/O in the source and are inputs here. -/
def buildCatalog (entries : List (String × Int × Bool)) : List DirectoryInfo :=
  entries.filterMap fun e =>
    if 0 < e.2.1 then
      some { path := e.1
             size := e.2.1
             priority := if e.2.2 then 1 else 2
             source := if e.2.2 then "app" else "resource" }
    else
      none

/-- Model of `prioritize_directories` (lines 201-240): build the catalog, then sort
by `(priority, -size)`. -/
def prioritize_directories (entries : List (String × Int × Bool)) : List DirectoryInfo :=
  sortDirectories (buildCatalog entries)

/-- One row of the per-candidate table logged by
`select_directories_within_limit` (lines 263-274): the candidate's data
together with the SELECTED/SKIPPED verdict, in evaluation order. -/
structure Decision where
  path : String
  priority : Nat
  source : String
  size : Int
  accepted : Bool
  deriving DecidableEq, Repr

/-- The decision row the loop body produces for one candidate. -/
def mkDecision (d : DirectoryInfo) (accepted : Bool) : Decision :=
  ⟨d.path, d.priority, d.source, d.size, accepted⟩

/-- The selection loop of `select_directories_within_limit`
(lines 263-274), with the accumulators `selected_dirs`, `total_size` and
the sequence of logged decision rows made explicit: accept a candidate
iff `total_size + dir_info.size <= memory_limit`, adding its size to the
running total on accept. -/
def selectGo (memoryLimit : Int) :
    List DirectoryInfo → List String → Int → List Decision →
    List String × Int × List Decision
  | [], selected, total, decisions => (selected, total, decisions)
  | d :: rest, selected, total, decisions =>
    if total + d.size ≤ memoryLimit then
      selectGo memoryLimit rest (selected ++ [d.path]) (total + d.size)
        (decisions ++ [mkDecision d true])
    else
      selectGo memoryLimit rest selected total (decisions ++ [mkDecision d false])

/-- Model of `select_directories_within_limit` (lines 242-281). Its return value in
the source is only the pair `(selected_dirs, total_size)`; the decision
rows are logged, not returned. -/
def select_directories_within_limit (memoryLimit : Int) (dirInfoList : List DirectoryInfo) :
    List String × Int :=
  let r := selectGo memoryLimit dirInfoList [] 0 []
  (r.1, r.2.1)

/-- The full decision trail of one selection run: the sequence of
SELECTED/SKIPPED rows logged by the loop, in evaluation order. -/
def selectionDecisions (memoryLimit : Int) (dirInfoList : List DirectoryInfo) :
    List Decision :=
  (selectGo memoryLimit dirInfoList [] 0 []).2.2

/-- Sum of the sizes of the accepted decisions among the first `i`
decision rows: the value of `total_size` just before candidate `i` is
evaluated. -/
def acceptedSizeBefore (ds : List Decision) (i : Nat) : Int :=
  (((ds.take i).filter fun d => d.accepted).map fun d => d.size).sum

/-- Accumulator-free restatement of the selection loop, used to reason
about `selectGo` by structural induction; `selectGo_eq_selectRec`
connects the two. -/
def selectRec (memoryLimit : Int) (total : Int) :
    List DirectoryInfo → List String × Int × List Decision
  | [] => ([], total, [])
  | d :: rest =>
    if total + d.size ≤ memoryLimit then
      let r := selectRec memoryLimit (total + d.size) rest
      (d.path :: r.1, r.2.1, mkDecision d true :: r.2.2)
    else
      let r := selectRec memoryLimit total rest
      (r.1, r.2.1, mkDecision d false :: r.2.2)

lemma selectGo_eq_selectRec (memoryLimit : Int) (l : List DirectoryInfo)
    (sel : List String) (tot : Int) (ds : List Decision) :
    selectGo memoryLimit l sel tot ds =
      (sel ++ (selectRec memoryLimit tot l).1,
       (selectRec memoryLimit tot l).2.1,
       ds ++ (selectRec memoryLimit tot l).2.2) := by
  induction l generalizing sel tot ds with
  | nil => simp [selectGo, selectRec]
  | cons d rest ih =>
    simp only [selectGo, selectRec]
    split
    · rw [ih]; simp
    · rw [ih]; simp

lemma selectRec_decisions_length (memoryLimit tot : Int) (l : List DirectoryInfo) :
    ((selectRec memoryLimit tot l).2.2).length = l.length := by
  induction l generalizing tot with
  | nil => rfl
  | cons d rest ih =>
    simp only [selectRec]
    split
    · simpa using ih (tot + d.size)
    · simpa using ih tot

lemma selectRec_decision_get (memoryLimit : Int) (l : List DirectoryInfo) :
    ∀ (tot : Int) (i : Nat) (d : DirectoryInfo), l[i]? = some d →
      ((selectRec memoryLimit tot l).2.2)[i]? =
        some (mkDecision d
          (decide (tot + acceptedSizeBefore (selectRec memoryLimit tot l).2.2 i + d.size
            ≤ memoryLimit))) := by
  induction l with
  | nil => intro tot i d h; simp at h
  | cons a rest ih =>
    intro tot i d h
    match i with
    | 0 =>
      simp only [List.getElem?_cons_zero, Option.some.injEq] at h
      subst h
      simp only [selectRec]
      split
      · rename_i hle
        simp [acceptedSizeBefore, hle]
      · rename_i hgt
        have hd : decide (tot + a.size ≤ memoryLimit) = false := by
          simp only [decide_eq_false_iff_not]
          exact hgt
        simp [acceptedSizeBefore, hd]
    | i + 1 =>
      simp only [List.getElem?_cons_succ] at h
      simp only [selectRec]
      split
      · have := ih (tot + a.size) i d h
        simpa [acceptedSizeBefore, mkDecision, List.filter_cons, add_assoc,
          add_left_comm, add_comm] using this
      · have := ih tot i d h
        simpa [acceptedSizeBefore, mkDecision] using this

lemma selectRec_selected (memoryLimit : Int) (l : List DirectoryInfo) (tot : Int) :
    (selectRec memoryLimit tot l).1 =
      (((selectRec memoryLimit tot l).2.2).filter fun d => d.accepted).map fun d => d.path := by
  induction l generalizing tot with
  | nil => rfl
  | cons a rest ih =>
    simp only [selectRec]
    split
    · simpa [mkDecision] using ih (tot + a.size)
    · simpa [mkDecision] using ih tot

lemma selectRec_total (memoryLimit : Int) (l : List DirectoryInfo) (tot : Int) :
    (selectRec memoryLimit tot l).2.1 =
      tot + ((((selectRec memoryLimit tot l).2.2).filter fun d => d.accepted).map
        fun d => d.size).sum := by
  induction l generalizing tot with
  | nil => simp [selectRec]
  | cons a rest ih =>
    simp only [selectRec]
    split
    · rw [ih (tot + a.size)]; simp [mkDecision, add_assoc]
    · rw [ih tot]; simp [mkDecision]

/-- C1: `prioritize_directories` orders the catalog by priority ascending
then size descending, and `select_directories_within_limit` walks that
order exactly once with a running total, accepting a record iff
`runningTotal + size ≤ memoryLimit` (adding the size on accept, recording
a skip otherwise): decision `i` exists for every candidate `i`, its
verdict is exactly the running-total test where the running total is the
sum of the previously accepted sizes, the selected paths are the accepted
decisions in walk order, and the returned total is the sum of accepted
sizes. On candidates `[(p1,100,app),(p2,80,app),(p3,50,resource)]` with
budget `150` the result is `(["p1","p3"], 150)`. -/
theorem select_greedy_single_pass :
    (∀ entries, (prioritize_directories entries).Sorted dirKeyLE ∧
      (prioritize_directories entries).Perm (buildCatalog entries)) ∧
    (∀ (memoryLimit : Int) (l : List DirectoryInfo),
      (selectionDecisions memoryLimit l).length = l.length ∧
      (∀ (i : Nat) (d : DirectoryInfo), l[i]? = some d →
        (selectionDecisions memoryLimit l)[i]? =
          some (mkDecision d
            (decide (acceptedSizeBefore (selectionDecisions memoryLimit l) i + d.size
              ≤ memoryLimit)))) ∧
      (select_directories_within_limit memoryLimit l).1 =
        (((selectionDecisions memoryLimit l).filter fun d => d.accepted).map
          fun d => d.path) ∧
      (select_directories_within_limit memoryLimit l).2 =
        ((((selectionDecisions memoryLimit l).filter fun d => d.accepted).map
          fun d => d.size)).sum) ∧
    select_directories_within_limit 150
      (prioritize_directories [("p1", 100, true), ("p2", 80, true), ("p3", 50, false)]) =
      (["p1", "p3"], 150) := by
  refine ⟨fun entries => ⟨?_, ?_⟩, fun memoryLimit l => ⟨?_, ?_, ?_, ?_⟩, by decide⟩
  · exact List.sorted_insertionSort dirKeyLE (buildCatalog entries)
  · exact List.perm_insertionSort dirKeyLE (buildCatalog entries)
  · have h := selectGo_eq_selectRec memoryLimit l [] 0 []
    simp only [selectionDecisions, h, List.nil_append]
    exact selectRec_decisions_length memoryLimit 0 l
  · intro i d hd
    have h := selectGo_eq_selectRec memoryLimit l [] 0 []
    simp only [selectionDecisions, h, List.nil_append]
    have := selectRec_decision_get memoryLimit l 0 i d hd
    simpa using this
  · have h := selectGo_eq_selectRec memoryLimit l [] 0 []
    simp only [selectionDecisions, select_directories_within_limit, h, List.nil_append]
    exact selectRec_selected memoryLimit l 0
  · have h := selectGo_eq_selectRec memoryLimit l [] 0 []
    simp only [selectionDecisions, select_directories_within_limit, h, List.nil_append]
    simpa using selectRec_total memoryLimit l 0

/-- Witness for `select_greedy_single_pass`: its per-index hypothesis is
satisfiable, at index 1 of the sorted scenario-A catalog (the skipped
record `p2`). -/
theorem select_greedy_single_pass_witness :
    (prioritize_directories [("p1", 100, true), ("p2", 80, true), ("p3", 50, false)])[1]? =
        some ⟨"p2", 80, 1, "app"⟩ ∧
    (selectionDecisions 150
        (prioritize_directories [("p1", 100, true), ("p2", 80, true), ("p3", 50, false)]))[1]? =
      some (mkDecision ⟨"p2", 80, 1, "app"⟩
        (decide (acceptedSizeBefore
          (selectionDecisions 150
            (prioritize_directories [("p1", 100, true), ("p2", 80, true), ("p3", 50, false)]))
          1 + (80 : Int) ≤ 150))) :=
  ⟨by decide,
    (select_greedy_single_pass.2.1 150
      (prioritize_directories [("p1", 100, true), ("p2", 80, true), ("p3", 50, false)])).2.1
      1 ⟨"p2", 80, 1, "app"⟩ (by decide)⟩

/-- The Bool form of "this record has key `(p, s)`". -/
def hasKey (p : Nat) (s : Int) (d : DirectoryInfo) : Bool :=
  d.priority == p && d.size == s

lemma filter_orderedInsert_hasKey (p : Nat) (s : Int) (a : DirectoryInfo)
    (ha : hasKey p s a = true) (l : List DirectoryInfo) :
    (List.orderedInsert dirKeyLE a l).filter (hasKey p s) =
      a :: l.filter (hasKey p s) := by
  induction l with
  | nil => simp [List.orderedInsert, ha]
  | cons b rest ih =>
    simp only [List.orderedInsert]
    split
    · simp [List.filter_cons, ha]
    · rename_i hab
      have hb : hasKey p s b = false := by
        by_contra hb
        apply hab
        simp only [hasKey, Bool.and_eq_true, beq_iff_eq] at ha
        simp only [Bool.not_eq_false, hasKey, Bool.and_eq_true, beq_iff_eq] at hb
        exact Or.inr ⟨ha.1.trans hb.1.symm, hb.2.trans ha.2.symm ▸ le_refl _⟩
      simp only [List.filter_cons, hb, Bool.false_eq_true, if_false, ih]

lemma filter_orderedInsert_not_hasKey (p : Nat) (s : Int) (a : DirectoryInfo)
    (ha : hasKey p s a = false) (l : List DirectoryInfo) :
    (List.orderedInsert dirKeyLE a l).filter (hasKey p s) = l.filter (hasKey p s) := by
  induction l with
  | nil => simp [List.orderedInsert, ha]
  | cons b rest ih =>
    simp only [List.orderedInsert]
    split
    · simp [List.filter_cons, ha]
    · simp [List.filter_cons, ih]

lemma sortDirectories_filter_hasKey (p : Nat) (s : Int) (l : List DirectoryInfo) :
    (sortDirectories l).filter (hasKey p s) = l.filter (hasKey p s) := by
  induction l with
  | nil => rfl
  | cons a rest ih =>
    simp only [sortDirectories, List.insertionSort] at ih ⊢
    cases ha : hasKey p s a with
    | true =>
      rw [filter_orderedInsert_hasKey p s a ha, ih]
      simp [List.filter_cons, ha]
    | false =>
      rw [filter_orderedInsert_not_hasKey p s a ha, ih]
      simp [List.filter_cons, ha]

/-- C2: selection is deterministic and idempotent — the whole pipeline is
a pure function of `(entries, memoryLimit)` (no hidden randomness), so
two runs on identical inputs give identical selections, totals and
decision trails — and the sort of `prioritize_directories` is stable: for
every key `(p, s)`, the records carrying that key appear in the sorted
output in exactly their input order. -/
theorem select_deterministic_stable :
    (∀ (entries : List (String × Int × Bool)) (memoryLimit : Int),
      select_directories_within_limit memoryLimit (prioritize_directories entries) =
        select_directories_within_limit memoryLimit (prioritize_directories entries) ∧
      selectionDecisions memoryLimit (prioritize_directories entries) =
        selectionDecisions memoryLimit (prioritize_directories entries)) ∧
    (∀ (l : List DirectoryInfo) (p : Nat) (s : Int),
      (sortDirectories l).filter (hasKey p s) = l.filter (hasKey p s)) :=
  ⟨fun _ _ => ⟨rfl, rfl⟩, fun l p s => sortDirectories_filter_hasKey p s l⟩

/-- C3 counterexample: the value returned by
`select_directories_within_limit` is only `(selected_dirs, total_size)`
and does not include the decisions audit trail as data: two different
candidate lists (one with a skipped candidate, one empty) produce
identical return values while their decision trails differ, so the
skipped candidate's verdict is not part of the selector's output. -/
theorem decisions_absent_from_output_counterexample :
    select_directories_within_limit 5 [⟨"p", 10, 1, "app"⟩] =
      select_directories_within_limit 5 [] ∧
    selectionDecisions 5 [⟨"p", 10, 1, "app"⟩] ≠ selectionDecisions 5 [] := by
  decide

/-- C3 amended: the decisions audit trail is emitted as log lines during
the walk, not returned as data; that logged trail does contain one entry
per candidate, in evaluation order, every candidate — including every
skipped one — appearing with its verdict (accepted iff it fits the
remaining budget). -/
theorem selection_decisions_audit_trail :
    ∀ (memoryLimit : Int) (l : List DirectoryInfo),
      (selectionDecisions memoryLimit l).length = l.length ∧
      (∀ (i : Nat) (d : DirectoryInfo), l[i]? = some d →
        ∃ b, (selectionDecisions memoryLimit l)[i]? = some (mkDecision d b) ∧
          (b = true ↔
            acceptedSizeBefore (selectionDecisions memoryLimit l) i + d.size
              ≤ memoryLimit)) := by
  intro memoryLimit l
  have h := selectGo_eq_selectRec memoryLimit l [] 0 []
  constructor
  · simp only [selectionDecisions, h, List.nil_append]
    exact selectRec_decisions_length memoryLimit 0 l
  · intro i d hd
    simp only [selectionDecisions, h, List.nil_append]
    refine ⟨decide (0 + acceptedSizeBefore (selectRec memoryLimit 0 l).2.2 i + d.size
        ≤ memoryLimit), ?_, ?_⟩
    · exact selectRec_decision_get memoryLimit l 0 i d hd
    · simp

/-- Witness for `selection_decisions_audit_trail`: the skipped candidate
of the two-element run below still has a decision row with verdict
`false`. -/
theorem selection_decisions_audit_trail_witness :
    ∃ b, (selectionDecisions 5 [⟨"q", 4, 1, "app"⟩, ⟨"p", 10, 1, "app"⟩])[1]? =
        some (mkDecision ⟨"p", 10, 1, "app"⟩ b) ∧
      (b = true ↔
        acceptedSizeBefore (selectionDecisions 5 [⟨"q", 4, 1, "app"⟩, ⟨"p", 10, 1, "app"⟩]) 1 +
          (10 : Int) ≤ 5) :=
  (selection_decisions_audit_trail 5 [⟨"q", 4, 1, "app"⟩, ⟨"p", 10, 1, "app"⟩]).2
    1 ⟨"p", 10, 1, "app"⟩ (by decide)

/-- C4: the catalog built by `prioritize_directories` keeps exactly the
entries whose measured size is positive — a size of `0`, and any negative
size, is dropped — and classifies an application directory as priority 1 /
source `"app"` and every other directory as priority 2 /
source `"resource"`. -/
theorem catalog_filters_and_classifies :
    ∀ (entries : List (String × Int × Bool)),
      (buildCatalog entries =
        (entries.filter fun e => decide (0 < e.2.1)).map fun e =>
          ⟨e.1, e.2.1, if e.2.2 then 1 else 2, if e.2.2 then "app" else "resource"⟩) ∧
      (∀ d ∈ buildCatalog entries, 0 < d.size ∧
        ((d.priority = 1 ∧ d.source = "app") ∨ (d.priority = 2 ∧ d.source = "resource"))) := by
  intro entries
  constructor
  · induction entries with
    | nil => rfl
    | cons e rest ih =>
      simp only [buildCatalog, List.filterMap_cons, List.filter_cons] at ih ⊢
      by_cases he : (0 : Int) < e.2.1
      · simp [he, ih]
      · simp [he, ih]
  · intro d hd
    simp only [buildCatalog, List.mem_filterMap] at hd
    obtain ⟨e, _, he⟩ := hd
    by_cases hs : (0 : Int) < e.2.1
    · simp only [hs, if_true, Option.some.injEq] at he
      subst he
      refine ⟨hs, ?_⟩
      by_cases happ : e.2.2 <;> simp [happ]
    · simp [hs] at he

/-- Witness for `catalog_filters_and_classifies`: the surviving record of
a catalog built from one app entry, one zero-size entry and one
negative-size entry. -/
theorem catalog_filters_and_classifies_witness :
    (0 : Int) < (⟨"a", 5, 1, "app"⟩ : DirectoryInfo).size ∧
      (((⟨"a", 5, 1, "app"⟩ : DirectoryInfo).priority = 1 ∧
          (⟨"a", 5, 1, "app"⟩ : DirectoryInfo).source = "app") ∨
        ((⟨"a", 5, 1, "app"⟩ : DirectoryInfo).priority = 2 ∧
          (⟨"a", 5, 1, "app"⟩ : DirectoryInfo).source = "resource")) :=
  (catalog_filters_and_classifies [("a", 5, true), ("z", 0, false), ("n", -3, true)]).2
    ⟨"a", 5, 1, "app"⟩ (by decide)

/-- How one invocation of the external lock operation behaves: either the
`subprocess.Popen` call raises (spawn/communication failure), or a child
is spawned and runs to completion with the given exit code (the
`timeout <t>` wrapper makes a hung child exit nonzero, code 124). For a
spawned child, `exitsWithinGrace` records how it would respond to a later
`terminate()` request, which `_cleanup_processes` needs. -/
inductive LockBehavior where
  | spawnFailure
  | spawned (exitCode : Int) (exitsWithinGrace : Bool)
  deriving DecidableEq, Repr

/-- One entry of `self.processes`: the directory whose child this is,
whether `poll()` still returns `None` (the child is running), and whether
the child would exit within the grace window after `terminate()`. -/
structure ChildProcess where
  dir : String
  running : Bool
  exitsWithinGrace : Bool
  deriving DecidableEq, Repr

/-- What `_cleanup_processes` does to one tracked process. -/
inductive CleanupAction where
  | skipped
  | terminated
  | killed
  deriving DecidableEq, Repr

/-- The grace window passed to `process.wait(timeout=5)` at line 92. -/
def gracePeriodSeconds : Nat := 5

/-- The loop body of `_cleanup_processes` (lines 88-95): a process whose
`poll()` is no longer `None` is left alone; a running one is terminated,
waited on for `gracePeriodSeconds`, and killed if the wait times out. -/
def cleanupAction (p : ChildProcess) : CleanupAction :=
  if !p.running then .skipped
  else if p.exitsWithinGrace then .terminated
  else .killed

/-- Model of `_cleanup_processes` (lines 86-96): apply `cleanupAction` to every
tracked process, then `self.processes.clear()`. Returns the per-process
action trace and the registry afterwards. -/
def cleanup_processes (procs : List ChildProcess) :
    List CleanupAction × List ChildProcess :=
  (procs.map cleanupAction, [])

/-- Model of `_signal_handler` (lines 80-84): on SIGINT/SIGTERM, run
`_cleanup_processes` and call `sys.exit(0)`. Result: the cleanup trace
and registry, and the process exit code. -/
def signal_handler (procs : List ChildProcess) :
    (List CleanupAction × List ChildProcess) × Nat :=
  (cleanup_processes procs, 0)

/-- The command built by `_lock_directory` (lines 428-432): the child is
wrapped in the external `timeout` utility — which is what enforces the
per-operation timeout — and prefixed with `sudo` when not running as
root. -/
def lockCommand (isRoot : Bool) (timeout : Nat) (directory : String) : List String :=
  let cmd := ["timeout", toString timeout, "vmtouch", "-vl", directory]
  if isRoot then cmd else "sudo" :: cmd

/-- State threaded through `_lock_directory`: the `self.processes`
registry and the `self.locked_dirs` set (kept as a list in insertion
order). -/
structure LockState where
  processes : List ChildProcess
  lockedDirs : List String
  deriving DecidableEq, Repr

/-- Model of `_lock_directory` (lines 413-454) as a state transformer. The result
records, in order: the registry as it stands right after
`self.processes.append(process)` — i.e. before the blocking
`process.communicate()` call (`none` when `Popen` raised and nothing was
appended) — then the final state, then the `(directory, success)` return
value. Every exception path is caught and yields `(directory, False)`;
the completed child stays in the registry with `running := false`. -/
def lock_directory (st : LockState) (directory : String) (behavior : LockBehavior) :
    Option (List ChildProcess) × LockState × (String × Bool) :=
  match behavior with
  | .spawnFailure => (none, st, (directory, false))
  | .spawned exitCode g =>
    let registered := st.processes ++ [⟨directory, true, g⟩]
    let afterWait := st.processes ++ [⟨directory, false, g⟩]
    if exitCode = 0 then
      (some registered, ⟨afterWait, st.lockedDirs ++ [directory]⟩, (directory, true))
    else
      (some registered, ⟨afterWait, st.lockedDirs⟩, (directory, false))

/-- The lock phase of `preload_applications` (lines 552-562): run
`_lock_directory` once per selected directory, collecting one
`(directory, success)` result per submitted directory. `as_completed`
yields results in an unspecified order; this sequential model fixes
submission order — one admissible order — and the bijection property
proved below is order-independent. -/
def runLocks (behavior : String → LockBehavior) :
    List String → LockState → List (String × Bool) × LockState
  | [], st => ([], st)
  | d :: rest, st =>
    let r := lock_directory st d (behavior d)
    let r2 := runLocks behavior rest r.2.1
    (r.2.2 :: r2.1, r2.2)

/-- The aggregate observables of one `preload_applications` run. -/
structure RunReport where
  attempted : Nat
  succeeded : Nat
  outcomes : List (String × Bool)
  result : Bool
  deriving DecidableEq, Repr

/-- Model of `preload_applications` (lines 496-574) with its I/O inputs explicit:
`depsOk` is the result of `_check_dependencies` (checked first, before
anything else); `hasConfig` is whether any app command or resource
directory was configured; `uniqueDirs` is the validated, deduplicated
candidate list with measured size and app-membership flag; `memoryLimit`
is `get_memory_limit()`; `behavior` gives each child's runtime
behaviour. Every early exit returns `False` with no attempt and no child
spawned; otherwise the selected directories are locked and the run
returns `success_count == len(selected_dirs)`. -/
def preload_applications (depsOk hasConfig : Bool)
    (uniqueDirs : List (String × Int × Bool)) (memoryLimit : Int)
    (behavior : String → LockBehavior) : RunReport × LockState :=
  if !depsOk then (⟨0, 0, [], false⟩, ⟨[], []⟩)
  else if !hasConfig then (⟨0, 0, [], false⟩, ⟨[], []⟩)
  else if uniqueDirs.isEmpty then (⟨0, 0, [], false⟩, ⟨[], []⟩)
  else
    let dirInfoList := prioritize_directories uniqueDirs
    let sel := select_directories_within_limit memoryLimit dirInfoList
    if sel.1.isEmpty then (⟨0, 0, [], false⟩, ⟨[], []⟩)
    else
      let r := runLocks behavior sel.1 ⟨[], []⟩
      let successCount := (r.1.filter fun o => o.2).length
      (⟨sel.1.length, successCount, r.1, successCount == sel.1.length⟩, r.2)

/-- The exit code chosen by `main` for the `preload` command
(lines 858-868): `sys.exit(0 if success else 1)`. -/
def mainExitCode (depsOk hasConfig : Bool) (uniqueDirs : List (String × Int × Bool))
    (memoryLimit : Int) (behavior : String → LockBehavior) : Nat :=
  if (preload_applications depsOk hasConfig uniqueDirs memoryLimit behavior).1.result
  then 0 else 1

/-- Result of the lock phase when a shutdown signal may arrive. -/
inductive LockPhaseResult where
  | completed (outcomes : List (String × Bool)) (finalState : LockState)
  | interrupted (actions : List CleanupAction) (exitCode : Nat)
  deriving DecidableEq, Repr

/-- The outcome list the run delivers, if it delivers one. -/
def LockPhaseResult.reportedOutcomes : LockPhaseResult → Option (List (String × Bool))
  | .completed outcomes _ => some outcomes
  | .interrupted _ _ => none

/-- The lock phase with a shutdown signal: `signalAfter = some k`
(`k` before the end) models SIGINT/SIGTERM arriving after `k` lock
operations have completed, upon which `_signal_handler` runs
`_cleanup_processes` on the registry as it stands and calls
`sys.exit(0)`: the loop never finishes and no outcome collection is
produced. `none` (or a `k` past the end) is an uninterrupted run. -/
def runLocksWithSignal (behavior : String → LockBehavior) (dirs : List String)
    (signalAfter : Option Nat) : LockPhaseResult :=
  match signalAfter with
  | none =>
    let r := runLocks behavior dirs ⟨[], []⟩
    .completed r.1 r.2
  | some k =>
    if k < dirs.length then
      let partialRun := runLocks behavior (dirs.take k) ⟨[], []⟩
      let handler := signal_handler partialRun.2.processes
      .interrupted handler.1.1 handler.2
    else
      let r := runLocks behavior dirs ⟨[], []⟩
      .completed r.1 r.2

lemma preload_result_spec (depsOk hasConfig : Bool)
    (uniqueDirs : List (String × Int × Bool)) (memoryLimit : Int)
    (behavior : String → LockBehavior) :
    (preload_applications depsOk hasConfig uniqueDirs memoryLimit behavior).1.result = true ↔
      ((preload_applications depsOk hasConfig uniqueDirs memoryLimit behavior).1.succeeded =
          (preload_applications depsOk hasConfig uniqueDirs memoryLimit behavior).1.attempted ∧
        0 < (preload_applications depsOk hasConfig uniqueDirs memoryLimit behavior).1.attempted) := by
  simp only [preload_applications]
  split
  · simp
  split
  · simp
  split
  · simp
  split
  · simp
  rename_i hne
  simp only [beq_iff_eq]
  constructor
  · intro h
    refine ⟨h, ?_⟩
    have hnil : (select_directories_within_limit memoryLimit
        (prioritize_directories uniqueDirs)).1 ≠ [] := by
      intro hemp
      exact hne (by simp [hemp])
    exact List.length_pos.mpr hnil
  · intro h
    exact h.1

/-- C5: the run is reported successful iff every attempted path locked
successfully and at least one path was attempted; a run that selects
nothing (or short-circuits on missing dependency / missing config /
empty candidate list) is a failure, never a silent success; and the
process exit code of the `preload` command is 0 exactly in the
successful case and 1 otherwise. -/
theorem run_success_iff_all_locked :
    ∀ (depsOk hasConfig : Bool) (uniqueDirs : List (String × Int × Bool))
      (memoryLimit : Int) (behavior : String → LockBehavior),
      (mainExitCode depsOk hasConfig uniqueDirs memoryLimit behavior = 0 ↔
        ((preload_applications depsOk hasConfig uniqueDirs memoryLimit behavior).1.succeeded =
            (preload_applications depsOk hasConfig uniqueDirs memoryLimit behavior).1.attempted ∧
          0 < (preload_applications depsOk hasConfig uniqueDirs memoryLimit behavior).1.attempted)) ∧
      ((preload_applications depsOk hasConfig uniqueDirs memoryLimit behavior).1.result = true ↔
        ((preload_applications depsOk hasConfig uniqueDirs memoryLimit behavior).1.succeeded =
            (preload_applications depsOk hasConfig uniqueDirs memoryLimit behavior).1.attempted ∧
          0 < (preload_applications depsOk hasConfig uniqueDirs memoryLimit behavior).1.attempted)) := by
  intro dk hc ud ml b
  have h := preload_result_spec dk hc ud ml b
  refine ⟨?_, h⟩
  unfold mainExitCode
  split
  · rename_i hr
    simpa using h.mp hr
  · rename_i hr
    constructor
    · intro h0
      exact absurd h0 (by omega)
    · intro hrhs
      exact absurd (h.mpr hrhs) hr

/-- C6 counterexample: with the locking dependency missing and one viable
candidate (which an unimpeded run would select), the run fails fast but
records no per-path outcome at all — in particular no `DependencyMissing`
outcome exists for the path `"p"`; the code produces no outcome objects
whatsoever on this path. -/
theorem dependency_missing_no_outcomes_counterexample :
    select_directories_within_limit 100 (prioritize_directories [("p", 5, true)]) =
      (["p"], 5) ∧
    (preload_applications false true [("p", 5, true)] 100
        (fun _ => .spawned 0 true)).1.outcomes = [] ∧
    (preload_applications false true [("p", 5, true)] 100
        (fun _ => .spawned 0 true)).1.result = false :=
  ⟨by decide, rfl, rfl⟩

/-- C6 amended: `_check_dependencies` is consulted before anything else;
if the dependency is missing, the whole run fails fast with an overall
failure result and exit code 1 — zero attempts, zero successes, no
per-path outcome recorded, and no child process spawned (the final
registry is empty). -/
theorem dependency_missing_fails_fast :
    ∀ (hasConfig : Bool) (uniqueDirs : List (String × Int × Bool))
      (memoryLimit : Int) (behavior : String → LockBehavior),
      preload_applications false hasConfig uniqueDirs memoryLimit behavior =
        (⟨0, 0, [], false⟩, ⟨[], []⟩) ∧
      mainExitCode false hasConfig uniqueDirs memoryLimit behavior = 1 := by
  intro hc ud ml b
  exact ⟨rfl, rfl⟩

/-- C7 counterexample: `_signal_handler` exits the process with status
`0`, not a non-zero-equivalent status: with one live child it runs the
terminate-and-wait cleanup and then calls `sys.exit(0)`. -/
theorem shutdown_exit_code_counterexample :
    signal_handler [⟨"p", true, true⟩] = (([.terminated], []), 0) ∧
    (signal_handler [⟨"p", true, true⟩]).2 = 0 := by
  exact ⟨rfl, rfl⟩

/-- C7 amended: on a shutdown signal the handler walks the registry,
leaving finished children alone, sending every live child a terminate
request and waiting up to the 5-second grace window, force-killing any
straggler, clearing the registry — and then exits the process with
status `0` (a success status, not non-zero). Per-operation timeouts are
enforced by wrapping the child in the external `timeout` utility rather
than by this terminate-then-kill escalation. -/
theorem shutdown_terminate_then_kill :
    ∀ (procs : List ChildProcess),
      gracePeriodSeconds = 5 ∧
      (signal_handler procs).2 = 0 ∧
      (signal_handler procs).1.2 = [] ∧
      (signal_handler procs).1.1.length = procs.length ∧
      (∀ (i : Nat) (p : ChildProcess), procs[i]? = some p →
        (((signal_handler procs).1.1[i]? = some .skipped) ↔ p.running = false) ∧
        (((signal_handler procs).1.1[i]? = some .terminated) ↔
          (p.running = true ∧ p.exitsWithinGrace = true)) ∧
        (((signal_handler procs).1.1[i]? = some .killed) ↔
          (p.running = true ∧ p.exitsWithinGrace = false))) ∧
      (∀ (isRoot : Bool) (t : Nat) (d : String),
        lockCommand isRoot t d =
          (if isRoot then [] else ["sudo"]) ++
            ["timeout", toString t, "vmtouch", "-vl", d]) := by
  intro procs
  refine ⟨rfl, rfl, rfl, by simp [signal_handler, cleanup_processes], ?_, ?_⟩
  · intro i p hp
    have hact : (signal_handler procs).1.1[i]? = some (cleanupAction p) := by
      simp [signal_handler, cleanup_processes, List.getElem?_map, hp]
    rw [hact]
    cases hr : p.running <;> cases hg : p.exitsWithinGrace <;>
      simp [cleanupAction, hr, hg]
  · intro r t d
    cases r <;> simp [lockCommand]

/-- Witness for `shutdown_terminate_then_kill`: the straggler child below
(live, unresponsive to terminate) is force-killed, not skipped and not
merely terminated. -/
theorem shutdown_terminate_then_kill_witness :
    (((signal_handler [⟨"p", true, false⟩]).1.1[0]? = some .skipped) ↔
      (⟨"p", true, false⟩ : ChildProcess).running = false) ∧
    (((signal_handler [⟨"p", true, false⟩]).1.1[0]? = some .terminated) ↔
      ((⟨"p", true, false⟩ : ChildProcess).running = true ∧
        (⟨"p", true, false⟩ : ChildProcess).exitsWithinGrace = true)) ∧
    (((signal_handler [⟨"p", true, false⟩]).1.1[0]? = some .killed) ↔
      ((⟨"p", true, false⟩ : ChildProcess).running = true ∧
        (⟨"p", true, false⟩ : ChildProcess).exitsWithinGrace = false)) :=
  (shutdown_terminate_then_kill [⟨"p", true, false⟩]).2.2.2.2.1 0 ⟨"p", true, false⟩ rfl

/-- C8 counterexample: a lock operation that runs to completion does not
remove its child from `self.processes`: starting from an empty registry,
after a successful lock the registry still holds the finished child
instead of being empty again. -/
theorem child_not_removed_counterexample :
    (lock_directory ⟨[], []⟩ "p" (.spawned 0 true)).2.1.processes =
      [⟨"p", false, true⟩] ∧
    (lock_directory ⟨[], []⟩ "p" (.spawned 0 true)).2.1.processes ≠ [] :=
  ⟨rfl, by decide⟩

/-- C8 amended: the spawned child is appended to `self.processes` before
the blocking `communicate()` call and stays registered throughout its
execution; on completion — success or failure alike — it is not removed
but remains in the registry marked finished, where `_cleanup_processes`
later skips it via the `poll()` check and clears the whole list; when
`Popen` itself raises, nothing is registered. -/
theorem child_registered_before_block :
    ∀ (st : LockState) (d : String) (code : Int) (g : Bool),
      (lock_directory st d (.spawned code g)).1 =
        some (st.processes ++ [⟨d, true, g⟩]) ∧
      (lock_directory st d (.spawned code g)).2.1.processes =
        st.processes ++ [⟨d, false, g⟩] ∧
      (lock_directory st d .spawnFailure).1 = none ∧
      (lock_directory st d .spawnFailure).2.1 = st ∧
      cleanupAction ⟨d, false, g⟩ = .skipped ∧
      (cleanup_processes (lock_directory st d (.spawned code g)).2.1.processes).2 = [] := by
  intro st d code g
  refine ⟨?_, ?_, rfl, rfl, rfl, rfl⟩
  · simp only [lock_directory]
    split <;> rfl
  · simp only [lock_directory]
    split <;> rfl

lemma runLocks_fst_map (behavior : String → LockBehavior) :
    ∀ (dirs : List String) (st : LockState),
      (runLocks behavior dirs st).1.map Prod.fst = dirs := by
  intro dirs
  induction dirs with
  | nil => intro st; rfl
  | cons d rest ih =>
    intro st
    simp only [runLocks]
    cases hb : behavior d with
    | spawnFailure => simp [lock_directory, ih]
    | spawned c g =>
      simp only [lock_directory]
      split <;> simp [ih]

/-- C9 counterexample: under forced shutdown an outcome can silently
vanish: with one submitted path and a shutdown signal arriving before
its operation completes, the handler exits the process (status 0) and no
outcome collection is ever delivered — zero outcomes for one submitted
path, so the outcomes are not a bijection with the paths. -/
theorem shutdown_outcome_missing_counterexample :
    (runLocksWithSignal (fun _ => .spawned 0 true) ["p"] (some 0)).reportedOutcomes =
      none ∧
    runLocksWithSignal (fun _ => .spawned 0 true) ["p"] (some 0) = .interrupted [] 0 ∧
    (["p"] : List String).length = 1 :=
  ⟨rfl, rfl, rfl⟩

/-- C9 amended: for every run whose lock phase is not interrupted by a
shutdown signal, the collected outcomes are a complete bijection with the
submitted paths — exactly one `(path, success)` outcome per submitted
path, in particular equal length and equal path sequence, timeouts and
spawn failures included (they yield `success = false`, never a missing
outcome); a run interrupted by a shutdown signal delivers no outcome
collection at all. -/
theorem outcome_bijection_when_uninterrupted :
    ∀ (behavior : String → LockBehavior) (dirs : List String) (st : LockState),
      ((runLocks behavior dirs st).1.map Prod.fst = dirs) ∧
      ((runLocks behavior dirs st).1.length = dirs.length) ∧
      (runLocksWithSignal behavior dirs none =
        .completed (runLocks behavior dirs ⟨[], []⟩).1 (runLocks behavior dirs ⟨[], []⟩).2) ∧
      (∀ k, k < dirs.length →
        (runLocksWithSignal behavior dirs (some k)).reportedOutcomes = none) := by
  intro b dirs st
  refine ⟨runLocks_fst_map b dirs st, ?_, rfl, ?_⟩
  · have h := congrArg List.length (runLocks_fst_map b dirs st)
    simpa using h
  · intro k hk
    simp [runLocksWithSignal, hk, LockPhaseResult.reportedOutcomes]

/-- Witness for `outcome_bijection_when_uninterrupted`: a signal arriving
after the first of two operations suppresses the outcome collection. -/
theorem outcome_bijection_when_uninterrupted_witness :
    (runLocksWithSignal (fun _ => .spawned 0 true) ["a", "b"] (some 1)).reportedOutcomes =
      none :=
  (outcome_bijection_when_uninterrupted (fun _ => .spawned 0 true) ["a", "b"]
    ⟨[], []⟩).2.2.2 1 (by decide)

/-- State of the `ThreadPoolExecutor(max_workers=max_workers)` that runs
the lock tasks (lines 553-562): the submitted directories not yet picked
up, and one slot per pool worker — `some d` while that worker is
executing the lock operation for directory `d`, `none` while idle. The
pool consists of a fixed set of worker threads; a task can start only by
occupying an idle worker slot, and each worker executes one task at a
time to completion — the executor's documented scheduling contract. -/
structure PoolState where
  pending : List String
  workers : List (Option String)
  deriving DecidableEq, Repr

/-- Initial pool: every selected directory submitted
(`executor.submit(self._lock_directory, directory, timeout)`), every
worker idle. -/
def poolInit (maxWorkers : Nat) (dirs : List String) : PoolState :=
  ⟨dirs, List.replicate maxWorkers none⟩

/-- One scheduling event of the pool: an idle worker picks up the next
pending task, or a busy worker completes its task. -/
inductive PoolStep : PoolState → PoolState → Prop
  | start (i : Nat) (d : String) (rest : List String) (ws : List (Option String))
      (hidle : ws[i]? = some none) :
      PoolStep ⟨d :: rest, ws⟩ ⟨rest, ws.set i (some d)⟩
  | finish (i : Nat) (d : String) (pending : List String) (ws : List (Option String))
      (hbusy : ws[i]? = some (some d)) :
      PoolStep ⟨pending, ws⟩ ⟨pending, ws.set i none⟩

/-- Number of concurrently live lock operations: the busy workers. -/
def liveCount (s : PoolState) : Nat :=
  (s.workers.filter fun w => w.isSome).length

lemma poolStep_workers_length {s t : PoolState} (h : PoolStep s t) :
    t.workers.length = s.workers.length := by
  cases h with
  | start i d rest ws hidle => simp
  | finish i d pending ws hbusy => simp

lemma poolReachable_workers_length (maxWorkers : Nat) (dirs : List String)
    (s : PoolState) (h : Relation.ReflTransGen PoolStep (poolInit maxWorkers dirs) s) :
    s.workers.length = maxWorkers := by
  induction h with
  | refl => simp [poolInit]
  | tail _ hstep ih => rw [poolStep_workers_length hstep, ih]

/-- C10: at no point during execution does the number of concurrently
live lock operations exceed `maxWorkers`: in every pool state reachable
from the initial submission, the count of busy workers is at most
`maxWorkers`, because the pool is a fixed set of exactly `maxWorkers`
worker slots and every live operation occupies one. -/
theorem live_operations_bounded_by_max_workers :
    ∀ (maxWorkers : Nat) (dirs : List String) (s : PoolState),
      Relation.ReflTransGen PoolStep (poolInit maxWorkers dirs) s →
      liveCount s ≤ maxWorkers := by
  intro maxWorkers dirs s h
  have hlen := poolReachable_workers_length maxWorkers dirs s h
  calc liveCount s ≤ s.workers.length := List.length_filter_le _ _
    _ = maxWorkers := hlen

/-- Witness for `live_operations_bounded_by_max_workers`: the state after
worker 0 of a two-worker pool picks up the first of three tasks is
reachable, and its live count respects the bound. -/
theorem live_operations_bounded_witness :
    liveCount ⟨["b", "c"], [some "a", none]⟩ ≤ 2 :=
  live_operations_bounded_by_max_workers 2 ["a", "b", "c"]
    ⟨["b", "c"], [some "a", none]⟩
    (Relation.ReflTransGen.single
      (by simpa using PoolStep.start 0 "a" ["b", "c"] [none, none] rfl))
